import Mathlib

/-!
# Shallow embedding of the shoppinglist core (src/src/App.tsx, src/unnamed/part_001)

This file embeds the pure core of the checklist application:

* the data model (`Item`, `State`),
* the ordering engine (`sortUncheckedFirst`, `reorderByInsert`, `reorderAndUncheck`),
* the paste helper (`pasteMerge`),
* the undo/redo history machine (`pushHistory`, `undoStep`, `redoStep`),
* selected document mutations (`toggleCheckedById`, `insertEmptyAfterId`,
  the edit-mode toggle).

TypeScript values are embedded as follows: strings as `String`, numbers that
hold integers as `Int`/`Nat`, optional fields (`_selected?: boolean`,
`_checkedAt?: number`) as `Option`.  `JSON.stringify`/`JSON.parse` round
trips on plain data are modelled as the identity (deep copy of a pure value).
`Array.prototype.sort`, which is stable by the ECMAScript specification, is
modelled by `List.insertionSort` (the stable sort for a given key is unique).
-/

/-- `Item` from App.tsx:
`{ id: string; text: string; checked: boolean; _selected?: boolean; _checkedAt?: number }`. -/
structure Item where
  id : String
  text : String
  checked : Bool
  _selected : Option Bool := none
  _checkedAt : Option Nat := none
  deriving DecidableEq

/-- `State` from App.tsx: `{ edit: boolean; items: Item[] }`. -/
structure State where
  edit : Bool
  items : List Item
  deriving DecidableEq

/-- The sort key used by `sortUncheckedFirst`'s comparator: `x._checkedAt ?? 0`. -/
def keyOf (it : Item) : Nat := it._checkedAt.getD 0

/-- The comparator `(x, y) => (x._checkedAt ?? 0) - (y._checkedAt ?? 0)` orders by
ascending key; as a relation: `keyOf x ≤ keyOf y`. -/
def keyLe (x y : Item) : Prop := keyOf x ≤ keyOf y

instance : DecidableRel keyLe := fun x y => Nat.decLe (keyOf x) (keyOf y)

instance : IsTotal Item keyLe := ⟨fun x y => Nat.le_total (keyOf x) (keyOf y)⟩

instance : IsTrans Item keyLe := ⟨fun _ _ _ h h' => Nat.le_trans h h'⟩

/-- App.tsx `sortUncheckedFirst` (lines 181–187): partition into unchecked `a`
and checked `b` preserving order, stably sort `b` by `_checkedAt ?? 0`
ascending, return `a.concat(b)`. -/
def sortUncheckedFirst (items : List Item) : List Item :=
  let a := items.filter (fun it => !it.checked)
  let b := items.filter (fun it => it.checked)
  a ++ b.insertionSort keyLe

/-- App.tsx `reorderByInsert` (lines 189–198): remove the items whose id is in
`draggingIds`, clamp `insertAt` into `[0, rest.length]`, and reinsert the
removed items as one block at the clamped position. -/
def reorderByInsert (items : List Item) (draggingIds : List String) (insertAt : Int) :
    List Item :=
  let moving := items.filter (fun i => draggingIds.contains i.id)
  let rest := items.filter (fun i => !draggingIds.contains i.id)
  let pos : Nat := (max 0 (min insertAt (rest.length : Int))).toNat
  rest.take pos ++ moving ++ rest.drop pos

/-- App.tsx `reorderAndUncheck` (lines 199–208): apply `reorderByInsert`, then
map every moved item to `{ ...it, checked: false, _selected: false }`.
Note the source does not touch `_checkedAt` here. -/
def reorderAndUncheck (items : List Item) (draggingIds : List String) (insertAt : Int) :
    List Item :=
  (reorderByInsert items draggingIds insertAt).map (fun it =>
    if draggingIds.contains it.id then
      { it with checked := false, _selected := some false }
    else it)

/-- `pasted.split(/\r?\n/)` on the character list: a literal `"\r\n"` or a bare
`"\n"` ends a piece; a `"\r"` not followed by `"\n"` is an ordinary character. -/
def splitRN : List Char → List (List Char)
  | [] => [[]]
  | '\r' :: '\n' :: rest => [] :: splitRN rest
  | '\n' :: rest => [] :: splitRN rest
  | c :: rest =>
    match splitRN rest with
    | [] => [[c]]
    | l :: ls => (c :: l) :: ls

/-- App.tsx `pasteMerge` (lines 211–217):
split the pasted text on `/\r?\n/`, drop empty pieces, and if any piece is
left, splice the first piece into `original` at `cursor`; the remaining
pieces are returned as `rest`.  The result pair is `(first, rest)`. -/
def pasteMerge (original : String) (cursor : Nat) (pasted : String) :
    String × List String :=
  let lines := ((splitRN pasted.data).map String.mk).filter
    (fun l => decide (0 < l.length))
  match lines with
  | [] => (original, [])
  | l0 :: restLines =>
    let before : String := ⟨original.data.take cursor⟩
    let after : String := ⟨original.data.drop cursor⟩
    (before ++ l0 ++ after, restLines)

/-- App.tsx `toggleCheckedById` (lines 547–554), as the pure `setState`
updater: flip `checked` on the item with the given id.  The source performs
no history push and does not touch `_checkedAt`. -/
def toggleCheckedById (prev : State) (id : String) : State :=
  { prev with
    items := prev.items.map (fun it =>
      if it.id == id then { it with checked := !it.checked } else it) }

/-- part_001 `toggleCheckedById` (lines 233–250): no-op in edit mode；
otherwise flips `checked`, setting `_checkedAt := Date.now()` on false→true
and clearing it on true→false, and pushes a history snapshot of the
pre-state before applying.  Returns the new state together with whether a
snapshot was pushed. -/
def toggleCheckedByIdV1 (st : State) (id : String) (now : Nat) : State × Bool :=
  if st.edit then (st, false)
  else
    ({ st with
        items := st.items.map (fun it =>
          if it.id == id then
            if it.checked then { it with checked := false, _checkedAt := none }
            else { it with checked := true, _checkedAt := some now }
          else it) },
      true)

/-- App.tsx `insertEmptyAfterId` (lines 663–681), as the pure `setState`
updater with the fresh id passed explicitly: find the item with the given
id; if absent return the items unchanged, otherwise splice a blank item in
directly after it. -/
def insertEmptyAfterId (prev : State) (id : String) (newId : String) : State :=
  match prev.items.findIdx? (fun it => it.id == id) with
  | none => { edit := prev.edit, items := prev.items }
  | some pos =>
    { edit := prev.edit,
      items := prev.items.take (pos + 1)
        ++ [{ id := newId, text := "", checked := false }]
        ++ prev.items.drop (pos + 1) }

/-- The surrounding operation also guards on edit mode (`if (!state.edit) return`). -/
def insertEmptyAfterOp (st : State) (id : String) (newId : String) : State :=
  if st.edit then insertEmptyAfterId st id newId else st

/-- The character class trimmed by JavaScript `String.prototype.trim`:
ECMAScript WhiteSpace (TAB, VT, FF, SP, NBSP, ZWNBSP/BOM and every
Space_Separator code point: U+1680, U+2000..U+200A, U+202F, U+205F,
U+3000) together with the LineTerminators LF, CR, LS, PS. -/
def isJsSpace (c : Char) : Bool :=
  c == ' ' || c == '\t' || c == '\n' || c == '\r' || c == '\x0b' || c == '\x0c'
    || c == '\u00A0' || c == '\uFEFF' || c == '\u1680'
    || (0x2000 ≤ c.val && c.val ≤ 0x200A)
    || c == '\u2028' || c == '\u2029' || c == '\u202F' || c == '\u205F'
    || c == '\u3000'

/-- JavaScript `text.trim()`: strip leading and trailing whitespace. -/
def jsTrim (s : String) : String :=
  ⟨((s.data.dropWhile isJsSpace).reverse.dropWhile isJsSpace).reverse⟩

/-- App.tsx edit-mode toggle (lines 1482–1490), as the pure `setState`
updater: `s => ({ edit: !s.edit, items: s.edit ? s.items.filter(it => it.text.trim() !== "") : s.items })`. -/
def toggleEditOp (s : State) : State :=
  { edit := !s.edit,
    items := if s.edit then s.items.filter (fun it => !(jsTrim it.text == "")) else s.items }

/-- App.tsx `HISTORY_LIMIT` (line 131). -/
def HISTORY_LIMIT : Nat := 10

/-- The history machine's state: the undo stack `historyRef.current`, the redo
stack `redoRef.current` (both arrays with their most recent entry last), and
the current document `state`.  Snapshots are `JSON.stringify`ed in the
source; the round trip is modelled as the identity. -/
structure HistSt where
  hist : List State
  redo : List State
  cur : State
  deriving DecidableEq

/-- App.tsx `pushHistory` (lines 231–235): append the snapshot; if the stack
now exceeds `HISTORY_LIMIT`, shift off the oldest entry; clear the redo stack. -/
def pushHistory (st : HistSt) (s : State) : HistSt :=
  let h := st.hist ++ [s]
  { st with hist := if HISTORY_LIMIT < h.length then h.drop 1 else h, redo := [] }

/-- App.tsx `undo` (lines 236–242): on an empty undo stack do nothing;
otherwise push the current document on the redo stack, pop the most recent
snapshot and make it current. -/
def undoStep (st : HistSt) : HistSt :=
  match st.hist.getLast? with
  | none => st
  | some prev => { hist := st.hist.dropLast, redo := st.redo ++ [st.cur], cur := prev }

/-- App.tsx `redo` (lines 243–249): symmetric to `undoStep`; note the source
pushes onto the undo stack here without re-checking the limit. -/
def redoStep (st : HistSt) : HistSt :=
  match st.redo.getLast? with
  | none => st
  | some next => { hist := st.hist ++ [st.cur], redo := st.redo.dropLast, cur := next }

/-- `setState` with a plain value: replace the current document. -/
def mutateTo (st : HistSt) (s : State) : HistSt := { st with cur := s }

/-- The operations that touch the history machine. -/
inductive HOp where
  | push (s : State)
  | doUndo
  | doRedo
  | mutate (s : State)
  deriving DecidableEq

/-- One step of the history machine. -/
def stepOp (st : HistSt) : HOp → HistSt
  | .push s => pushHistory st s
  | .doUndo => undoStep st
  | .doRedo => redoStep st
  | .mutate s => mutateTo st s

/-- Run a sequence of operations. -/
def runOps (st : HistSt) (ops : List HOp) : HistSt := ops.foldl stepOp st

/-! ## Helper lemmas about `reorderByInsert` -/

/-- `reorderByInsert` literally is "take of the rest ++ the moving block ++ drop
of the rest" for the clamped position. -/
lemma reorderByInsert_def (items : List Item) (ids : List String) (k : Int) :
    reorderByInsert items ids k =
      (items.filter (fun i => !ids.contains i.id)).take
          ((max 0 (min k (((items.filter (fun i => !ids.contains i.id)).length : Nat) : Int))).toNat)
        ++ items.filter (fun i => ids.contains i.id)
        ++ (items.filter (fun i => !ids.contains i.id)).drop
          ((max 0 (min k (((items.filter (fun i => !ids.contains i.id)).length : Nat) : Int))).toNat) :=
  rfl

lemma sandwich_perm (l : List Item) (p : Item → Bool) (pos : Nat) :
    ((l.filter (fun x => !p x)).take pos ++ l.filter p
        ++ (l.filter (fun x => !p x)).drop pos).Perm l := by
  have h1 : ((l.filter (fun x => !p x)).take pos ++ l.filter p
      ++ (l.filter (fun x => !p x)).drop pos).Perm
      ((l.filter p ++ (l.filter (fun x => !p x)).take pos)
        ++ (l.filter (fun x => !p x)).drop pos) :=
    List.Perm.append_right _ List.perm_append_comm
  have h2 : ((l.filter p ++ (l.filter (fun x => !p x)).take pos)
      ++ (l.filter (fun x => !p x)).drop pos).Perm l := by
    rw [List.append_assoc, List.take_append_drop]
    exact List.filter_append_perm p l
  exact h1.trans h2

lemma filter_not_self (l : List Item) (p : Item → Bool) :
    (l.filter (fun x => !p x)).filter p = [] := by
  rw [List.filter_filter]
  simp

lemma take_filter_nil (l : List Item) (p : Item → Bool) (pos : Nat) :
    ((l.filter (fun x => !p x)).take pos).filter p = []
    ∧ ((l.filter (fun x => !p x)).drop pos).filter p = [] := by
  have h : ((l.filter (fun x => !p x)).take pos).filter p
      ++ ((l.filter (fun x => !p x)).drop pos).filter p = [] := by
    rw [← List.filter_append, List.take_append_drop]
    exact filter_not_self l p
  exact List.append_eq_nil.mp h

lemma sandwich_filter_pos (l : List Item) (p : Item → Bool) (pos : Nat) :
    ((l.filter (fun x => !p x)).take pos ++ l.filter p
        ++ (l.filter (fun x => !p x)).drop pos).filter p = l.filter p := by
  rw [List.filter_append, List.filter_append, (take_filter_nil l p pos).1,
    (take_filter_nil l p pos).2, List.filter_filter]
  simp

lemma sandwich_filter_neg (l : List Item) (p : Item → Bool) (pos : Nat) :
    ((l.filter (fun x => !p x)).take pos ++ l.filter p
        ++ (l.filter (fun x => !p x)).drop pos).filter (fun x => !p x)
      = l.filter (fun x => !p x) := by
  have htake : ((l.filter (fun x => !p x)).take pos).filter (fun x => !p x)
      = (l.filter (fun x => !p x)).take pos := by
    refine List.filter_eq_self.mpr fun a ha => ?_
    have ha' : a ∈ l.filter (fun x => !p x) := List.mem_of_mem_take ha
    have hp := List.of_mem_filter ha'
    exact hp
  have hdrop : ((l.filter (fun x => !p x)).drop pos).filter (fun x => !p x)
      = (l.filter (fun x => !p x)).drop pos := by
    refine List.filter_eq_self.mpr fun a ha => ?_
    have ha' : a ∈ l.filter (fun x => !p x) := List.mem_of_mem_drop ha
    have hp := List.of_mem_filter ha'
    exact hp
  have hmov : (l.filter p).filter (fun x => !p x) = [] := by
    rw [List.filter_filter]
    simp
  rw [List.filter_append, List.filter_append, htake, hdrop, hmov, List.append_nil,
    List.take_append_drop]

/-- C2: for every item sequence, every `movingIds ⊆ ids(items)` and every
integer insertion position `k`, `reorderByInsert` (the spec's `moveGroup`)
preserves the multiset of ids, preserves the relative order of the moved
items and of the remaining items, and reinserts the moved items as one
contiguous block.  It is a Lean function of its three arguments, hence pure
and deterministic. -/
theorem reorderByInsert_moveGroup_spec (items : List Item) (movingIds : List String)
    (k : Int) (hsub : ∀ x ∈ movingIds, x ∈ items.map Item.id) :
    ((reorderByInsert items movingIds k).map Item.id).Perm (items.map Item.id)
    ∧ (reorderByInsert items movingIds k).filter (fun i => movingIds.contains i.id)
        = items.filter (fun i => movingIds.contains i.id)
    ∧ (reorderByInsert items movingIds k).filter (fun i => !movingIds.contains i.id)
        = items.filter (fun i => !movingIds.contains i.id)
    ∧ ∃ pre post,
        reorderByInsert items movingIds k
          = pre ++ items.filter (fun i => movingIds.contains i.id) ++ post
        ∧ (∀ it ∈ pre, movingIds.contains it.id = false)
        ∧ (∀ it ∈ post, movingIds.contains it.id = false) := by
  rw [reorderByInsert_def]
  refine ⟨List.Perm.map _ (sandwich_perm items _ _), sandwich_filter_pos items _ _,
    sandwich_filter_neg items _ _, ?_⟩
  refine ⟨_, _, rfl, fun it hit => ?_, fun it hit => ?_⟩
  · have := List.of_mem_filter (List.mem_of_mem_take hit)
    simpa using this
  · have := List.of_mem_filter (List.mem_of_mem_drop hit)
    simpa using this

/-- Witness for C2 at a concrete input. -/
theorem reorderByInsert_moveGroup_spec_witness :
    ((reorderByInsert
        [⟨"a", "a", false, none, none⟩, ⟨"b", "b", false, none, none⟩]
        ["b"] 0).map Item.id).Perm
      (([⟨"a", "a", false, none, none⟩, ⟨"b", "b", false, none, none⟩] : List Item).map Item.id)
    ∧ (reorderByInsert
          [⟨"a", "a", false, none, none⟩, ⟨"b", "b", false, none, none⟩]
          ["b"] 0).filter (fun i => ["b"].contains i.id)
        = ([⟨"a", "a", false, none, none⟩, ⟨"b", "b", false, none, none⟩] : List Item).filter
            (fun i => ["b"].contains i.id)
    ∧ (reorderByInsert
          [⟨"a", "a", false, none, none⟩, ⟨"b", "b", false, none, none⟩]
          ["b"] 0).filter (fun i => !((["b"] : List String).contains i.id))
        = ([⟨"a", "a", false, none, none⟩, ⟨"b", "b", false, none, none⟩] : List Item).filter
            (fun i => !((["b"] : List String).contains i.id))
    ∧ ∃ pre post,
        reorderByInsert
            [⟨"a", "a", false, none, none⟩, ⟨"b", "b", false, none, none⟩]
            ["b"] 0
          = pre ++ ([⟨"a", "a", false, none, none⟩, ⟨"b", "b", false, none, none⟩] : List Item).filter
              (fun i => ["b"].contains i.id) ++ post
        ∧ (∀ it ∈ pre, (["b"] : List String).contains it.id = false)
        ∧ (∀ it ∈ post, (["b"] : List String).contains it.id = false) :=
  reorderByInsert_moveGroup_spec
    [⟨"a", "a", false, none, none⟩, ⟨"b", "b", false, none, none⟩] ["b"] 0 (by decide)

/-- C7: `reorderByInsert` clamps `insertAt` into `[0, rest.length]` and never
fails: a negative `insertAt` behaves like `0`, an `insertAt` at or beyond the
length of the remaining list inserts at the end, and an empty `movingIds`
returns the items unchanged at any `insertAt`. -/
theorem reorderByInsert_clamp (items : List Item) (ids : List String) (k : Int) :
    (k < 0 → reorderByInsert items ids k = reorderByInsert items ids 0)
    ∧ ((((items.filter (fun i => !ids.contains i.id)).length : Nat) : Int) ≤ k →
        reorderByInsert items ids k
          = items.filter (fun i => !ids.contains i.id)
            ++ items.filter (fun i => ids.contains i.id))
    ∧ reorderByInsert items [] k = items := by
  refine ⟨fun hneg => ?_, fun hbig => ?_, ?_⟩
  · rw [reorderByInsert_def, reorderByInsert_def]
    have h0 : (max 0 (min k (((items.filter (fun i => !ids.contains i.id)).length : Nat) : Int))).toNat
        = 0 := by omega
    have h0' : (max 0 (min 0 (((items.filter (fun i => !ids.contains i.id)).length : Nat) : Int))).toNat
        = 0 := by omega
    rw [h0, h0']
  · rw [reorderByInsert_def]
    have hlen : (max 0 (min k (((items.filter (fun i => !ids.contains i.id)).length : Nat) : Int))).toNat
        = (items.filter (fun i => !ids.contains i.id)).length := by omega
    rw [hlen, List.take_length, List.drop_length, List.append_nil]
  · rw [reorderByInsert_def]
    simp

/-- Witness for C7 at concrete inputs. -/
theorem reorderByInsert_clamp_witness :
    reorderByInsert [⟨"a", "a", false, none, none⟩, ⟨"b", "b", false, none, none⟩] ["a"] (-5)
      = reorderByInsert [⟨"a", "a", false, none, none⟩, ⟨"b", "b", false, none, none⟩] ["a"] 0
    ∧ reorderByInsert [⟨"a", "a", false, none, none⟩, ⟨"b", "b", false, none, none⟩] ["a"] 1000000
      = ([⟨"a", "a", false, none, none⟩, ⟨"b", "b", false, none, none⟩] : List Item).filter
          (fun i => !((["a"] : List String).contains i.id))
        ++ ([⟨"a", "a", false, none, none⟩, ⟨"b", "b", false, none, none⟩] : List Item).filter
          (fun i => ["a"].contains i.id)
    ∧ reorderByInsert [⟨"a", "a", false, none, none⟩, ⟨"b", "b", false, none, none⟩] [] 7
      = [⟨"a", "a", false, none, none⟩, ⟨"b", "b", false, none, none⟩] :=
  ⟨(reorderByInsert_clamp
      [⟨"a", "a", false, none, none⟩, ⟨"b", "b", false, none, none⟩] ["a"] (-5)).1 (by decide),
    (reorderByInsert_clamp
      [⟨"a", "a", false, none, none⟩, ⟨"b", "b", false, none, none⟩] ["a"] 1000000).2.1 (by decide),
    (reorderByInsert_clamp
      [⟨"a", "a", false, none, none⟩, ⟨"b", "b", false, none, none⟩] [] 7).2.2⟩

/-- C1 (amended): every item moved by `reorderAndUncheck` ends with
`checked = false` and `_selected = false` regardless of its prior state, and
the pass leaves every item's `_checkedAt` exactly as it was after the
reorder — the source does not clear `_checkedAt`. -/
theorem reorderAndUncheck_spec (items : List Item) (movingIds : List String) (k : Int) :
    (∀ it ∈ reorderAndUncheck items movingIds k, movingIds.contains it.id = true →
      it.checked = false ∧ it._selected = some false)
    ∧ (reorderAndUncheck items movingIds k).map Item._checkedAt
        = (reorderByInsert items movingIds k).map Item._checkedAt := by
  constructor
  · intro it hit hmem
    unfold reorderAndUncheck at hit
    rw [List.mem_map] at hit
    obtain ⟨x, _, hfx⟩ := hit
    subst hfx
    split
    next => exact ⟨rfl, rfl⟩
    next hcond =>
      rw [if_neg hcond] at hmem
      exact absurd hmem hcond
  · unfold reorderAndUncheck
    rw [List.map_map]
    refine List.map_congr_left fun a _ => ?_
    simp only [Function.comp_apply]
    split
    · rfl
    · rfl

/-- Witness for C1 (amended) at a concrete input: a previously checked,
selected item with `_checkedAt = 5` is moved; it comes back unchecked and
unselected but keeps `_checkedAt = 5`. -/
theorem reorderAndUncheck_spec_witness :
    ((⟨"a", "x", false, some false, some 5⟩ : Item).checked = false
      ∧ (⟨"a", "x", false, some false, some 5⟩ : Item)._selected = some false)
    ∧ (reorderAndUncheck [⟨"a", "x", true, some true, some 5⟩] ["a"] 0).map Item._checkedAt
        = (reorderByInsert [⟨"a", "x", true, some true, some 5⟩] ["a"] 0).map Item._checkedAt :=
  ⟨(reorderAndUncheck_spec [⟨"a", "x", true, some true, some 5⟩] ["a"] 0).1
      ⟨"a", "x", false, some false, some 5⟩ (by decide) (by decide),
    (reorderAndUncheck_spec [⟨"a", "x", true, some true, some 5⟩] ["a"] 0).2⟩

/-- C1 (counterexample): the claim "every moved item has `checked=false`, no
`checkedAt`, and `selected=false`" is false — a moved item that had
`_checkedAt = 5` still has it after `reorderAndUncheck`. -/
theorem reorderAndUncheck_clearsCheckedAt_cex :
    ¬ (∀ it ∈ reorderAndUncheck [⟨"a", "x", true, some true, some 5⟩] ["a"] 0,
        (["a"] : List String).contains it.id = true →
          it.checked = false ∧ it._checkedAt = none ∧ it._selected = some false) := by
  decide

/-- C3 (code evaluation at the failing input): toggling an unchecked item to
checked via App.tsx's `toggleCheckedById` leaves `_checkedAt = none` — the
main variant neither records the check time nor takes a history snapshot
(its caller invokes it without `pushHistory`). -/
theorem toggleCheckedById_no_checkedAt :
    toggleCheckedById ⟨false, [⟨"a", "milk", false, none, none⟩]⟩ "a"
      = ⟨false, [⟨"a", "milk", true, none, none⟩]⟩ := by
  decide

/-- For contrast, the part_001 variant behaves as the spec describes: outside
edit mode it reports a snapshot push, and the toggled item ends with
`_checkedAt = some now` exactly when it ends checked. -/
theorem toggleCheckedByIdV1_checkedAt (st : State) (id : String) (now : Nat)
    (h : st.edit = false) :
    (toggleCheckedByIdV1 st id now).2 = true
    ∧ ∀ it ∈ (toggleCheckedByIdV1 st id now).1.items, it.id = id →
        (it.checked = true ∧ it._checkedAt = some now)
        ∨ (it.checked = false ∧ it._checkedAt = none) := by
  unfold toggleCheckedByIdV1
  rw [h, if_neg Bool.false_ne_true]
  refine ⟨rfl, ?_⟩
  intro it hit hid
  simp only [List.mem_map] at hit
  obtain ⟨x, _, hfx⟩ := hit
  subst hfx
  cases hb : (x.id == id) with
  | false =>
    rw [hb, if_neg Bool.false_ne_true] at hid
    exact absurd hid (by simpa using hb)
  | true =>
    rw [if_pos rfl]
    cases hc : x.checked with
    | false =>
      rw [if_neg Bool.false_ne_true]
      left
      exact ⟨rfl, rfl⟩
    | true =>
      rw [if_pos rfl]
      right
      exact ⟨rfl, rfl⟩

/-- Closed witness for the part_001 toggle behaviour. -/
theorem toggleCheckedByIdV1_checkedAt_witness :
    (toggleCheckedByIdV1 ⟨false, [⟨"a", "milk", false, none, none⟩]⟩ "a" 42).2 = true
    ∧ ∀ it ∈ (toggleCheckedByIdV1 ⟨false, [⟨"a", "milk", false, none, none⟩]⟩ "a" 42).1.items,
        it.id = "a" →
        (it.checked = true ∧ it._checkedAt = some 42)
        ∨ (it.checked = false ∧ it._checkedAt = none) :=
  toggleCheckedByIdV1_checkedAt ⟨false, [⟨"a", "milk", false, none, none⟩]⟩ "a" 42 rfl

/-- C4: `sortUncheckedFirst` puts all unchecked items first in their original
relative order, followed by the checked items sorted by `_checkedAt ?? 0`
non-decreasing, ties broken by original relative order (stability: for each
timestamp `t`, the checked items with that key appear exactly in their
original order). -/
theorem sortUncheckedFirst_spec (items : List Item) :
    ∃ cs : List Item,
      sortUncheckedFirst items = items.filter (fun it => !it.checked) ++ cs
      ∧ cs.Perm (items.filter (fun it => it.checked))
      ∧ cs.Sorted keyLe
      ∧ ∀ t : Nat, cs.filter (fun it => keyOf it == t)
          = (items.filter (fun it => it.checked)).filter (fun it => keyOf it == t) := by
  refine ⟨(items.filter (fun it => it.checked)).insertionSort keyLe, ?_, ?_, ?_, fun t => ?_⟩
  · rfl
  · exact List.perm_insertionSort keyLe _
  · exact List.sorted_insertionSort keyLe _
  have hpw : ((items.filter (fun it => it.checked)).filter
      (fun it => keyOf it == t)).Pairwise keyLe := by
    refine List.pairwise_of_forall_mem_list fun x hx y hy => ?_
    have hxt := List.of_mem_filter hx
    have hyt := List.of_mem_filter hy
    have hx' : keyOf x = t := by simpa using hxt
    have hy' : keyOf y = t := by simpa using hyt
    unfold keyLe
    rw [hx', hy']
  have hsubl : ((items.filter (fun it => it.checked)).filter
      (fun it => keyOf it == t)).Sublist
      ((items.filter (fun it => it.checked)).insertionSort keyLe) :=
    List.sublist_insertionSort hpw (List.filter_sublist _)
  have hsf := List.Sublist.filter (fun it => keyOf it == t) hsubl
  have hid : ((items.filter (fun it => it.checked)).filter
      (fun it => keyOf it == t)).filter (fun it => keyOf it == t)
      = (items.filter (fun it => it.checked)).filter (fun it => keyOf it == t) := by
    rw [List.filter_filter]
    simp
  rw [hid] at hsf
  have hperm := (List.perm_insertionSort keyLe
    (items.filter (fun it => it.checked))).filter (fun it => keyOf it == t)
  exact (hsf.eq_of_length hperm.length_eq.symm).symm

/-! ## History machine lemmas -/

lemma pushHistory_getLast? (st : HistSt) (s : State) :
    (pushHistory st s).hist.getLast? = some s := by
  simp only [pushHistory]
  split
  next hlen =>
    cases hh : st.hist with
    | nil =>
      rw [hh] at hlen
      simp [HISTORY_LIMIT] at hlen
    | cons a t =>
      rw [List.cons_append, List.drop_one, List.tail_cons]
      exact List.getLast?_concat _
  next => exact List.getLast?_concat _

lemma undoStep_eq {st : HistSt} {s : State} (h : st.hist.getLast? = some s) :
    undoStep st = ⟨st.hist.dropLast, st.redo ++ [st.cur], s⟩ := by
  unfold undoStep
  rw [h]

lemma redoStep_eq {st : HistSt} {s : State} (h : st.redo.getLast? = some s) :
    redoStep st = ⟨st.hist ++ [st.cur], st.redo.dropLast, s⟩ := by
  unfold redoStep
  rw [h]

/-- C5: after a snapshot of `d0` followed by a mutation to `d1`, `undo` makes
`d0` current again and pushes `d1` on the redo stack; an immediate `redo`
makes `d1` current again; a fresh snapshot clears the redo stack (so redo is
unavailable); and `undo`/`redo` on an empty respective stack are no-ops. -/
theorem history_undo_redo (st : HistSt) (d0 d1 : State) :
    (undoStep (mutateTo (pushHistory st d0) d1)).cur = d0
    ∧ (undoStep (mutateTo (pushHistory st d0) d1)).redo = [d1]
    ∧ (redoStep (undoStep (mutateTo (pushHistory st d0) d1))).cur = d1
    ∧ (∀ s, (pushHistory (undoStep (mutateTo (pushHistory st d0) d1)) s).redo = [])
    ∧ (∀ r c, undoStep ⟨[], r, c⟩ = ⟨[], r, c⟩)
    ∧ (∀ hl c, redoStep ⟨hl, [], c⟩ = ⟨hl, [], c⟩) := by
  have hlast : (mutateTo (pushHistory st d0) d1).hist.getLast? = some d0 :=
    pushHistory_getLast? st d0
  have h1 := undoStep_eq hlast
  refine ⟨by rw [h1], by rw [h1]; rfl, ?_, fun s => rfl, fun r c => rfl, fun hl c => rfl⟩
  rw [h1]
  have h2 : (⟨(mutateTo (pushHistory st d0) d1).hist.dropLast,
      (mutateTo (pushHistory st d0) d1).redo ++ [(mutateTo (pushHistory st d0) d1).cur],
      d0⟩ : HistSt).redo.getLast? = some d1 := List.getLast?_concat _
  rw [redoStep_eq h2]

lemma stepOp_invariant (st : HistSt) (op : HOp)
    (h : st.hist.length + st.redo.length ≤ HISTORY_LIMIT) :
    (stepOp st op).hist.length + (stepOp st op).redo.length ≤ HISTORY_LIMIT := by
  cases op with
  | push s =>
    simp only [stepOp, pushHistory]
    split
    next hlen =>
      simp only [HISTORY_LIMIT, List.length_drop, List.length_append,
        List.length_cons, List.length_nil] at h hlen ⊢
      omega
    next hlen =>
      simp only [HISTORY_LIMIT, List.length_append, List.length_cons,
        List.length_nil, not_lt] at h hlen ⊢
      omega
  | doUndo =>
    simp only [stepOp]
    unfold undoStep
    cases hh : st.hist.getLast? with
    | none => simpa using h
    | some prev =>
      have hne : st.hist ≠ [] := by
        intro hnil
        rw [hnil] at hh
        simp at hh
      have hpos : 0 < st.hist.length := List.length_pos.mpr hne
      simp only [List.length_dropLast, List.length_append, List.length_cons,
        List.length_nil]
      omega
  | doRedo =>
    simp only [stepOp]
    unfold redoStep
    cases hh : st.redo.getLast? with
    | none => simpa using h
    | some next =>
      have hne : st.redo ≠ [] := by
        intro hnil
        rw [hnil] at hh
        simp at hh
      have hpos : 0 < st.redo.length := List.length_pos.mpr hne
      simp only [List.length_dropLast, List.length_append, List.length_cons,
        List.length_nil]
      omega
  | mutate s => simpa using h

lemma runOps_invariant (ops : List HOp) (st : HistSt)
    (h : st.hist.length + st.redo.length ≤ HISTORY_LIMIT) :
    (runOps st ops).hist.length + (runOps st ops).redo.length ≤ HISTORY_LIMIT := by
  induction ops generalizing st with
  | nil => simpa [runOps] using h
  | cons op ops ih =>
    have hstep := stepOp_invariant st op h
    simpa [runOps, List.foldl_cons] using ih (stepOp st op) hstep

/-- C8: pushing eleven snapshots onto an initially empty history retains
exactly the ten most recent, and the ten-entry bound on the undo stack holds
after every sequence of operations. -/
theorem history_bound_spec :
    (∀ s0 s1 s2 s3 s4 s5 s6 s7 s8 s9 s10 s11 : State,
      (runOps ⟨[], [], s0⟩
          [HOp.push s1, HOp.push s2, HOp.push s3, HOp.push s4, HOp.push s5,
            HOp.push s6, HOp.push s7, HOp.push s8, HOp.push s9, HOp.push s10,
            HOp.push s11]).hist
        = [s2, s3, s4, s5, s6, s7, s8, s9, s10, s11])
    ∧ ∀ (s0 : State) (ops : List HOp),
        ((runOps ⟨[], [], s0⟩ ops).hist).length ≤ HISTORY_LIMIT := by
  constructor
  · intro s0 s1 s2 s3 s4 s5 s6 s7 s8 s9 s10 s11
    simp [runOps, stepOp, pushHistory, HISTORY_LIMIT]
  · intro s0 ops
    have h := runOps_invariant ops ⟨[], [], s0⟩ (by simp)
    omega

/-- C9: if the given id is not present in the document's items, the
insert-empty-item-after operation leaves the item sequence unchanged
(silent no-op, total function). -/
theorem insertEmptyAfter_id_not_found (st : State) (id newId : String)
    (h : id ∉ st.items.map Item.id) :
    (insertEmptyAfterOp st id newId).items = st.items := by
  have hfind : st.items.findIdx? (fun it => it.id == id) = none := by
    rw [List.findIdx?_eq_none_iff]
    intro x hx
    rw [beq_eq_false_iff_ne]
    intro hxe
    apply h
    rw [← hxe]
    exact List.mem_map_of_mem Item.id hx
  unfold insertEmptyAfterOp insertEmptyAfterId
  rw [hfind]
  split
  · rfl
  · rfl

/-- Witness for C9 at a concrete input. -/
theorem insertEmptyAfter_id_not_found_witness :
    ("b" ∉ ([⟨"a", "a", false, none, none⟩] : List Item).map Item.id)
    ∧ (insertEmptyAfterOp ⟨true, [⟨"a", "a", false, none, none⟩]⟩ "b" "n7").items
        = [⟨"a", "a", false, none, none⟩] :=
  ⟨by decide,
    insertEmptyAfter_id_not_found ⟨true, [⟨"a", "a", false, none, none⟩]⟩ "b" "n7"
      (by decide)⟩

/-- C10: toggling edit mode off removes exactly the items whose trimmed text
is empty; toggling it on leaves the items untouched; in both directions the
non-blank items keep their order and contents. -/
theorem toggleEdit_spec (s : State) :
    (s.edit = true →
      (toggleEditOp s).edit = false
      ∧ (toggleEditOp s).items = s.items.filter (fun it => !(jsTrim it.text == ""))
      ∧ ∀ it ∈ (toggleEditOp s).items, (jsTrim it.text == "") = false)
    ∧ (s.edit = false → toggleEditOp s = ⟨true, s.items⟩)
    ∧ (toggleEditOp s).items.filter (fun it => !(jsTrim it.text == ""))
        = s.items.filter (fun it => !(jsTrim it.text == "")) := by
  refine ⟨fun he => ?_, fun he => ?_, ?_⟩
  · unfold toggleEditOp
    rw [he]
    refine ⟨rfl, by simp, ?_⟩
    intro it hit
    have hit' : it ∈ s.items.filter (fun it => !(jsTrim it.text == "")) := by
      simpa using hit
    have hp := List.of_mem_filter hit'
    simpa using hp
  · unfold toggleEditOp
    rw [he]
    simp
  · unfold toggleEditOp
    cases hse : s.edit with
    | false => simp
    | true => simp [List.filter_filter]

/-- Witness for C10 at concrete inputs: leaving edit mode drops the
whitespace-only item and keeps the non-blank one; entering edit mode keeps
everything. -/
theorem toggleEdit_spec_witness :
    (toggleEditOp ⟨true, [⟨"a", "  ", false, none, none⟩, ⟨"j", "\u3000", false, none, none⟩,
        ⟨"b", "x", false, none, none⟩]⟩).items
      = [⟨"b", "x", false, none, none⟩]
    ∧ toggleEditOp ⟨false, [⟨"a", "  ", false, none, none⟩]⟩
      = ⟨true, [⟨"a", "  ", false, none, none⟩]⟩ :=
  ⟨(((toggleEdit_spec
        ⟨true, [⟨"a", "  ", false, none, none⟩, ⟨"j", "\u3000", false, none, none⟩,
          ⟨"b", "x", false, none, none⟩]⟩).1
      rfl).2.1).trans (by decide),
    (toggleEdit_spec ⟨false, [⟨"a", "  ", false, none, none⟩]⟩).2.1 rfl⟩

/-- C6 (code evaluation at the failing input): `pasteMerge("foo", 3, "\r\nA\r\nB")`
returns `("fooA", ["B"])` — the code filters out empty pieces *before* taking
the first line, so the leading line break does not protect the field text.
The file's own test (App.tsx `runTests`, case "pasteMerge CRLF") and the spec
expect `("foo", ["A","B"])`. -/
theorem pasteMerge_crlf_eval :
    pasteMerge "foo" 3 "\r\nA\r\nB" = ("fooA", ["B"]) := by
  decide

/-- `pasteMerge` on the mixed-blank-lines example (App.tsx test case
"pasteMerge splits correctly", which the code passes). -/
theorem pasteMerge_lf_eval :
    pasteMerge "abCD" 2 "x\ny\n\nz" = ("abxCD", ["y", "z"]) := by
  decide

/-- `pasteMerge` on a single-line paste (App.tsx test case
"pasteMerge single line no rest", which the code passes). -/
theorem pasteMerge_single_eval :
    pasteMerge "aa" 1 "Z" = ("aZa", []) := by
  decide

/-- `pasteMerge` on a paste of line breaks only (App.tsx test case
"pasteMerge empty or newlines only", which the code passes). -/
theorem pasteMerge_blank_eval :
    pasteMerge "hello" 2 "\n\n\r\n" = ("hello", []) := by
  decide
